import Mathlib

/-!
# IPXpress request-orchestration pipeline: a verification development

Shallow embedding of the IPXpress image-delivery service (Go), covering the
components its specification describes: cache-key derivation
(`GenerateCacheKey`), the TTL response cache (`InMemoryCache`), the
capacity-bounded LRU store, the transform-stage concurrency gate, the
`Fetcher` retry loop, parameter parsing (`ParseFormat`, `NeedsProcessing`,
`GetOutputFormat`), the `processImage` stage and the `ServeHTTP`
request lifecycle.  Bytes are modelled as `List Nat`, Go `int` as `Int`,
Go `float64` fields that are only compared against zero as `Rat`, and
wall-clock instants as `Int`.
-/

namespace IPXpress

/-- Fuel-driven decimal digit loop mirroring the rendering performed by Go
`fmt.Sprintf("%d", n)` for a natural number: most significant digit first,
no leading zeros (except for `0` itself). -/
def natReprAux : Nat → Nat → List Char → List Char
  | 0, _, acc => acc
  | fuel+1, n, acc =>
    if n < 10 then Nat.digitChar n :: acc
    else natReprAux fuel (n / 10) (Nat.digitChar (n % 10) :: acc)

/-- Decimal rendering of a natural number (Go `%d`). -/
def natRepr (n : Nat) : List Char := natReprAux (n + 1) n []

/-- Decimal rendering of a Go `int` via `fmt.Sprintf("%d", i)`:
a leading `-` for negative values, plain digits otherwise. -/
def intRepr (i : Int) : List Char :=
  if i < 0 then '-' :: natRepr (-i).toNat else natRepr i.toNat

/-- Go: `type Format string` (part_007). -/
abbrev Format := String

def FormatJPEG : Format := "jpeg"
def FormatPNG : Format := "png"
def FormatGIF : Format := "gif"
def FormatWebP : Format := "webp"
def FormatAVIF : Format := "avif"

/-- `Format.IsValid` (part_007): the format is one of the supported five. -/
def Format.IsValid (f : Format) : Bool :=
  f == FormatJPEG || f == FormatPNG || f == FormatGIF || f == FormatWebP || f == FormatAVIF

/-- `Format.ContentType` (part_007): the MIME content type of a format. -/
def Format.ContentType (f : Format) : String :=
  if f == FormatPNG then "image/png"
  else if f == FormatWebP then "image/webp"
  else if f == FormatGIF then "image/gif"
  else if f == FormatJPEG then "image/jpeg"
  else if f == FormatAVIF then "image/avif"
  else "application/octet-stream"

/-- ASCII lowercasing of one character; models Go `strings.ToLower` on the
ASCII range (the special Unicode case foldings are not modelled). -/
def toLowerChar (c : Char) : Char :=
  if 'A' ≤ c ∧ c ≤ 'Z' then Char.ofNat (c.toNat + 32) else c

/-- Model of Go `strings.ToLower` on the ASCII range. -/
def toLowerStr (s : String) : String := ⟨s.data.map toLowerChar⟩

/-- ASCII whitespace, modelling Go `unicode.IsSpace` on the ASCII range. -/
def isSpaceChar (c : Char) : Bool :=
  c == ' ' || c == '\t' || c == '\n' || c == '\r' ||
    c == Char.ofNat 11 || c == Char.ofNat 12

/-- Model of Go `strings.TrimSpace` (ASCII whitespace). -/
def trimSpace (s : String) : String :=
  ⟨((s.data.dropWhile isSpaceChar).reverse.dropWhile isSpaceChar).reverse⟩

/-- `ParseFormat` (part_007): trim and lowercase, map `jpg` to `jpeg`,
return the format when supported and the empty format otherwise. -/
def ParseFormat (s0 : String) : Format :=
  let s1 := toLowerStr (trimSpace s0)
  if s1 == "" then ""
  else
    let s2 := if s1 == "jpg" then "jpeg" else s1
    if Format.IsValid s2 then s2 else ""

/-- Byte `i` of the image data; Go indexes only after a length guard, so the
default value is never observed. -/
def byteAt (data : List Nat) (i : Nat) : Nat := data.getD i 0

/-- `DetectFormat` (part_007): sniff the image format from magic bytes. -/
def DetectFormat (data : List Nat) : Format :=
  if data.length < 12 then ""
  else if byteAt data 0 == 0xFF && byteAt data 1 == 0xD8 && byteAt data 2 == 0xFF then
    FormatJPEG
  else if byteAt data 0 == 0x89 && byteAt data 1 == 0x50 && byteAt data 2 == 0x4E
      && byteAt data 3 == 0x47 then
    FormatPNG
  else if byteAt data 0 == 0x47 && byteAt data 1 == 0x49 && byteAt data 2 == 0x46 then
    FormatGIF
  else if byteAt data 0 == 0x52 && byteAt data 1 == 0x49 && byteAt data 2 == 0x46
      && byteAt data 3 == 0x46 && byteAt data 8 == 0x57 && byteAt data 9 == 0x45
      && byteAt data 10 == 0x42 && byteAt data 11 == 0x50 then
    FormatWebP
  else if (byteAt data 4 == 0x66 && byteAt data 5 == 0x74 && byteAt data 6 == 0x79
      && byteAt data 7 == 0x70)
      && ((byteAt data 8 == 0x61 && byteAt data 9 == 0x76 && byteAt data 10 == 0x69
            && byteAt data 11 == 0x66)
        || (byteAt data 8 == 0x61 && byteAt data 9 == 0x76 && byteAt data 10 == 0x69
            && byteAt data 11 == 0x73)) then
    FormatAVIF
  else ""

/-- `ProcessingParams` (params.go): every field consulted by the pipeline.
`Blur` and `Gamma` are Go `float64` values that the pipeline only compares
against zero, modelled as `Rat`. -/
structure ProcessingParams where
  url : String := ""
  width : Int := 0
  height : Int := 0
  quality : Int := 85
  format : Format := ""
  fit : String := ""
  position : String := ""
  kernel : String := ""
  enlarge : Bool := false
  blur : Rat := 0
  sharpen : String := ""
  rotate : Int := 0
  flip : Bool := false
  flop : Bool := false
  grayscale : Bool := false
  extract : String := ""
  trim : Int := 0
  extend : String := ""
  background : String := ""
  negate : Bool := false
  normalize : Bool := false
  threshold : Int := 0
  tint : String := ""
  gamma : Rat := 0
  median : Int := 0
  modulate : String := ""
  flatten : Bool := false
  deriving DecidableEq

/-- `ProcessingParams.NeedsProcessing` (params.go): true when any
transformation is requested. -/
def ProcessingParams.NeedsProcessing (p : ProcessingParams) (originalFormat : Format) : Bool :=
  decide (p.width > 0) || decide (p.height > 0) || p.quality != 85 ||
  (p.format != "" && p.format != originalFormat) ||
  decide (p.blur > 0) || p.sharpen != "" || p.rotate != 0 ||
  p.flip || p.flop || p.grayscale ||
  p.extract != "" || decide (p.trim > 0) || p.extend != "" ||
  p.background != "" || p.negate || p.normalize ||
  decide (p.threshold > 0) || p.tint != "" || decide (p.gamma > 0) ||
  decide (p.median > 0) || p.modulate != "" || p.flatten ||
  p.fit != "" || p.position != "" || p.kernel != "" || p.enlarge

/-- `ProcessingParams.GetOutputFormat` (params.go): the requested format,
falling back to the original format and finally to JPEG. -/
def ProcessingParams.GetOutputFormat (p : ProcessingParams) (originalFormat : Format) : Format :=
  if p.format == "" then
    if originalFormat != "" then originalFormat else FormatJPEG
  else p.format

/-- The canonical byte sequence that `GenerateCacheKey` (cache.go) feeds to
md5: `fmt.Sprintf("%s|%d|%d|%d|%s", imageURL, width, height, quality,
format)`.  The subsequent md5-hex digest maps equal byte sequences to equal
keys, so key facts stated "up to hash collision" are facts about this
pre-image. -/
def GenerateCacheKey (imageURL : String) (width height quality : Int) (format : Format) :
    List Char :=
  imageURL.data ++ '|' :: intRepr width ++ '|' :: intRepr height
    ++ '|' :: intRepr quality ++ '|' :: format.data

/-- The cache key derived for one request, exactly as `ServeHTTP` (server.go
line 82) computes it: only URL, width, height, quality and format flow in. -/
def cacheKeyOfParams (p : ProcessingParams) : List Char :=
  GenerateCacheKey p.url p.width p.height p.quality p.format

/-- `CacheEntry` (cache.go): one cached response, success or failure.
Timestamps are model instants (`Int`). -/
structure CacheEntry where
  contentType : String := ""
  data : List Nat := []
  statusCode : Int := 200
  errorMsg : String := ""
  timestamp : Int := 0
  deriving DecidableEq

/-- The TTL map cache behind `NewInMemoryCache(config.CacheTTL)`, as
constructed by `NewHandler` (server.go line 45): a key/entry map plus a TTL.
Time is passed to each operation explicitly. -/
structure InMemoryCache where
  ttl : Int
  entries : List (List Char × CacheEntry)
  deriving DecidableEq

/-- `NewInMemoryCache(ttl)`: empty map, given TTL. -/
def NewInMemoryCache (ttl : Int) : InMemoryCache :=
  { ttl := ttl, entries := [] }

/-- `InMemoryCache.Get`: the Go method returns `(entry, found)` and reports
absence and expiry only through the boolean, never as an error; `Option`
models that pair.  An entry is expired when `now - timestamp > ttl`. -/
def InMemoryCache.Get (c : InMemoryCache) (now : Int) (key : List Char) : Option CacheEntry :=
  match List.lookup key c.entries with
  | none => none
  | some e => if now - e.timestamp > c.ttl then none else some e

/-- `InMemoryCache.Set`: stamps the entry with the current time and stores
it under the key (last write wins; lookup-first cons models map overwrite). -/
def InMemoryCache.Set (c : InMemoryCache) (now : Int) (key : List Char) (e : CacheEntry) :
    InMemoryCache :=
  { c with entries := (key, { e with timestamp := now }) :: c.entries }

/-- `InMemoryCache.Cleanup`: drops entries whose age exceeds the TTL. -/
def InMemoryCache.Cleanup (c : InMemoryCache) (now : Int) : InMemoryCache :=
  { c with entries := c.entries.filter (fun kv => !(now - kv.2.timestamp > c.ttl : Bool)) }

/-- Modelled from the spec: the capacity-bounded LRU store that
`NewInMemoryCache(ttl, capacity)` (cache.go, lines 27-35) builds on is the
external golang-lru `expirable.LRU` package, whose source is not part of
this repository.  Following spec section 4.1 and the testable properties:
entries kept in recency order, most recent first; `Set` inserts or
overwrites at the front, evicting the least-recently-used entry when the
store exceeds its capacity; `Get` moves the accessed key to the front.
TTL expiry is independent of capacity eviction and not modelled here. -/
structure LruCache where
  capacity : Nat
  entries : List (String × CacheEntry)
  deriving DecidableEq

/-- Remove a key from the recency list. -/
def lruRemove (l : List (String × CacheEntry)) (k : String) : List (String × CacheEntry) :=
  l.filter (fun kv => kv.1 != k)

/-- `Set` on the LRU store: move/insert the key to the front, truncate to
capacity (dropping the least recently used when over capacity). -/
def LruCache.set (c : LruCache) (k : String) (e : CacheEntry) : LruCache :=
  { c with entries := ((k, e) :: lruRemove c.entries k).take c.capacity }

/-- `Get` on the LRU store: on a hit, the accessed key becomes most
recent. -/
def LruCache.get (c : LruCache) (k : String) : Option CacheEntry × LruCache :=
  match List.lookup k c.entries with
  | none => (none, c)
  | some e => (some e, { c with entries := (k, e) :: lruRemove c.entries k })

/-- `NewInMemoryCache(ttl, capacity)` (cache.go): a non-positive capacity
falls back to 10000, then the expirable LRU is created with that capacity. -/
def NewInMemoryCacheCap (capacity : Int) : LruCache :=
  { capacity := if capacity ≤ 0 then 10000 else capacity.toNat, entries := [] }

/-- Run a sequence of `Set` operations against an LRU store. -/
def lruSetAll (c : LruCache) (l : List (String × CacheEntry)) : LruCache :=
  l.foldl (fun acc kv => acc.set kv.1 kv.2) c

/-- One interaction with the transform-stage gate, the buffered channel
`processingLimit` of `NewHandler` (server.go lines 48, 101-102):
a send models slot acquisition, a receive models release. -/
inductive SemEvent where
  | acquire
  | release
  deriving DecidableEq

/-- Execute a sequence of gate events against the buffered channel of
capacity `n`, starting from `c` held slots.  A send (`acquire`) is enabled
only while fewer than `n` slots are held — otherwise the sender blocks —
and a receive (`release`) only while a slot is held.  Returns the maximal
number of simultaneously held slots along the run, or `none` when the
sequence is not a possible interleaving (an event occurs while blocked). -/
def semPeak (n : Nat) : Nat → List SemEvent → Option Nat
  | c, [] => some c
  | c, .acquire :: es => if c < n then (semPeak n (c + 1) es).map (Nat.max c) else none
  | c, .release :: es => if 0 < c then (semPeak n (c - 1) es).map (Nat.max c) else none

/-- `Config` (config.go): the fields the orchestration pipeline consumes. -/
structure Config where
  cacheTTL : Int := 30
  processingLimit : Nat := 256
  cleanupInterval : Int := 30
  deriving DecidableEq

/-- `FetchError` (fetcher.go): status code plus message. -/
structure FetchError where
  statusCode : Int
  message : String
  deriving DecidableEq

/-- Outcome of one `f.client.Do(req)` attempt, supplied by the environment:
either a network-level error (with its `net.Error` timeout/temporary
classification) or an HTTP response with its status, body, and the outcome
of reading the body (`some msg` models an `io.ReadAll` failure). -/
inductive DoResult where
  | netErr (timeout temporary : Bool) (msg : String)
  | resp (status : Int) (body : List Nat) (readErr : Option String)
  deriving DecidableEq

/-- Whether an attempt outcome is a transient network error, exactly the
condition `ne.Timeout() || ne.Temporary()` of fetcher.go line 92. -/
def DoResult.transient : DoResult → Bool
  | .netErr t tmp _ => t || tmp
  | .resp _ _ _ => false

/-- Outcome of `url.Parse` on the image URL, supplied by the environment:
a parse failure, or success with the parsed scheme.  (The `http.NewRequest`
re-parse failure path of fetcher.go lines 74-80 is subsumed by the
malformed case.) -/
inductive UrlParse where
  | malformed (msg : String)
  | parsed (scheme : String)
  deriving DecidableEq

/-- Result of a `Fetch` call together with its observable effects: the
number of `client.Do` attempts issued and the backoff sleeps (in
milliseconds) performed, in order. -/
structure FetchTrace where
  result : Except FetchError (List Nat)
  attempts : Nat
  sleeps : List Int

/-- The retry loop of `Fetcher.Fetch` (fetcher.go lines 86-98):
`attempt` is the current attempt number, `remaining` the number of further
iterations the loop bound `attempt <= 3` still allows.  On a transient
network error the loop sleeps `attempt * 500ms` and retries; on any other
outcome it exits at once.  Returns the last attempt's outcome, the number
of attempts made, and the sleeps performed. -/
def fetchLoop (doFn : Nat → DoResult) : Nat → Nat → DoResult × Nat × List Int
  | attempt, 0 =>
    match doFn attempt with
    | .resp s b e => (.resp s b e, 1, [])
    | .netErr t tmp m =>
      if t || tmp then (.netErr t tmp m, 1, [500 * (attempt : Int)])
      else (.netErr t tmp m, 1, [])
  | attempt, remaining + 1 =>
    match doFn attempt with
    | .resp s b e => (.resp s b e, 1, [])
    | .netErr t tmp m =>
      if t || tmp then
        let rest := fetchLoop doFn (attempt + 1) remaining
        (rest.1, rest.2.1 + 1, 500 * (attempt : Int) :: rest.2.2)
      else (.netErr t tmp m, 1, [])

/-- `Fetcher.Fetch` (fetcher.go lines 49-124): URL validation, the bounded
retry loop, status check and body read, with every early return mapped to
its `FetchError`. -/
def Fetch (imageURL : String) (parse : UrlParse) (doFn : Nat → DoResult) : FetchTrace :=
  if imageURL == "" then
    { result := .error ⟨400, "missing image URL"⟩, attempts := 0, sleeps := [] }
  else
    match parse with
    | .malformed msg =>
      { result := .error ⟨400, "invalid image URL: " ++ msg⟩, attempts := 0, sleeps := [] }
    | .parsed scheme =>
      if scheme == "" || (scheme != "http" && scheme != "https") then
        { result := .error ⟨400, "image URL must use http or https"⟩,
          attempts := 0, sleeps := [] }
      else
        let run := fetchLoop doFn 1 2
        match run.1 with
        | .netErr _ _ m =>
          { result := .error ⟨400, "failed to fetch image: " ++ m⟩,
            attempts := run.2.1, sleeps := run.2.2 }
        | .resp status body readErr =>
          if status != 200 then
            { result := .error ⟨400,
                "image fetch failed with status " ++ (⟨intRepr status⟩ : String)⟩,
              attempts := run.2.1, sleeps := run.2.2 }
          else
            match readErr with
            | some m =>
              { result := .error ⟨500, "failed to read image data: " ++ m⟩,
                attempts := run.2.1, sleeps := run.2.2 }
            | none =>
              { result := .ok body, attempts := run.2.1, sleeps := run.2.2 }

/-- The opaque Image Transform Engine as `processImage` observes it for one
request: whether `vips.NewImageFromBuffer` decodes the source bytes
(`decodeOk`), the error state `proc.Err()` left by the built-in and custom
transformation steps when decoding succeeded (`pipelineErr`), and the
encoder invoked by `ToBytes` on the transformed handle (`encodeFn`). -/
structure EngineModel where
  decodeOk : Bool
  pipelineErr : Option String
  encodeFn : Format → Int → Except String (List Nat)

/-- The original format recorded by `Processor.FromBytes` (ipxpress.go lines
67-86): `DetectFormat` of the bytes on a successful decode, the empty
format when decoding failed (the field is never assigned). -/
def origFormatOf (eng : EngineModel) (imageData : List Nat) : Format :=
  if eng.decodeOk then DetectFormat imageData else ""

/-- `Processor.ToBytes` (ipxpress.go lines 523-591) after the error and
nil-image guards: quality outside 1..100 falls back to 85; the format
switch encodes the five supported formats and rejects any other. -/
def ToBytes (eng : EngineModel) (format : Format) (quality : Int) : Except String (List Nat) :=
  let q := if quality ≤ 0 ∨ quality > 100 then 85 else quality
  if format.IsValid then eng.encodeFn format q
  else .error ("unsupported format: " ++ format)

/-- Result of the transform stage: the cache entry it produces plus the
number of `proc.Close()` calls executed on the way (each such call on a
successfully decoded handle releases it; `Close` is a no-op when no handle
was created). -/
structure ProcessResult where
  entry : CacheEntry
  closes : Nat
  deriving DecidableEq

/-- `Handler.processImage` (server.go lines 145-193): decode, short-circuit
when no processing is requested, apply the pipeline, check `proc.Err()`,
encode, and build the cache entry — counting the `Close()` calls of each
path.  When decoding failed, `proc.Err()` is the decode error and the
pipeline steps are skipped by their error guards. -/
def processImage (eng : EngineModel) (imageData : List Nat) (p : ProcessingParams) :
    ProcessResult :=
  let origFormat := origFormatOf eng imageData
  if !(p.NeedsProcessing origFormat) then
    { entry := { contentType := "application/octet-stream", data := imageData,
                 statusCode := 200, errorMsg := "", timestamp := 0 },
      closes := 0 }
  else
    let outputFormat := p.GetOutputFormat origFormat
    let procErr : Option String :=
      if eng.decodeOk then eng.pipelineErr else some "failed to decode image"
    match procErr with
    | some e =>
      { entry := { contentType := "", data := [], statusCode := 500,
                   errorMsg := "processing: " ++ e, timestamp := 0 },
        closes := 1 }
    | none =>
      match ToBytes eng outputFormat p.quality with
      | .error e =>
        { entry := { contentType := "", data := [], statusCode := 500,
                     errorMsg := "encode: " ++ e, timestamp := 0 },
          closes := 1 }
      | .ok out =>
        { entry := { contentType := outputFormat.ContentType, data := out,
                     statusCode := 200, errorMsg := "", timestamp := 0 },
          closes := 1 }

/-- `Handler.createErrorEntry` (server.go lines 131-142) on a fetch error
(the only error kind `ServeHTTP` passes it): carry the status code and
message. -/
def createErrorEntry (fe : FetchError) : CacheEntry :=
  { contentType := "", data := [], statusCode := fe.statusCode,
    errorMsg := fe.message, timestamp := 0 }

/-- Bytes of a string written to the response body. -/
def strBytes (s : String) : List Nat := s.data.map Char.toNat

/-- The observable HTTP response `writeResponse` produces: status, body,
and the Content-Type / Cache-Control headers when set. -/
structure HttpResponse where
  statusCode : Int
  body : List Nat
  contentType : Option String
  cacheControl : Option String
  deriving DecidableEq

/-- `Handler.writeResponse` (server.go lines 332-351). -/
def writeResponse (e : CacheEntry) : HttpResponse :=
  if e.errorMsg != "" then
    { statusCode := e.statusCode, body := strBytes e.errorMsg,
      contentType := none, cacheControl := none }
  else
    { statusCode := e.statusCode, body := e.data,
      contentType := if e.contentType != "" then some e.contentType else none,
      cacheControl :=
        if e.contentType != "" then
          if e.contentType == "application/octet-stream" then
            some "public, max-age=31536000"
          else some "public, max-age=604800"
        else none }

/-- One `ServeHTTP` execution's observables: the response written, the
cache state afterwards, and whether the request performed the fetch stage
and the transform stage. -/
structure ServeResult where
  response : HttpResponse
  cache : InMemoryCache
  fetched : Bool
  processed : Bool
  deriving DecidableEq

/-- `Handler.ServeHTTP` (server.go lines 77-112) for one request at instant
`now`: derive the key, consult the cache, on a miss fetch (caching fetch
failures as error entries) and run the transform stage under the gate,
cache the outcome, and write exactly one response.  `fetchFn` abstracts
`Fetcher.Fetch` for the request's URL. -/
def serveHTTP (eng : EngineModel) (fetchFn : String → Except FetchError (List Nat))
    (now : Int) (cache : InMemoryCache) (p : ProcessingParams) : ServeResult :=
  let cacheKey := cacheKeyOfParams p
  match cache.Get now cacheKey with
  | some entry =>
    { response := writeResponse entry, cache := cache, fetched := false, processed := false }
  | none =>
    match fetchFn p.url with
    | .error fe =>
      let entry := { createErrorEntry fe with timestamp := now }
      { response := writeResponse entry, cache := cache.Set now cacheKey (createErrorEntry fe),
        fetched := true, processed := false }
    | .ok imageData =>
      let entry := { (processImage eng imageData p).entry with timestamp := now }
      { response := writeResponse entry,
        cache := cache.Set now cacheKey (processImage eng imageData p).entry,
        fetched := true, processed := true }

/-- Truncation of a rational toward zero, modelling Go's `int(x)` conversion
from `float64`. -/
def goInt (q : Rat) : Int := if q < 0 then -⌊-q⌋ else ⌊q⌋

/-- Target dimensions of a resize. -/
structure ResizeTarget where
  w : Int
  h : Int
  deriving DecidableEq

/-- The target-dimension computation of `Processor.ResizeWithOptions`
(ipxpress.go lines 176-218), with the `float64` scale arithmetic carried
out exactly over `Rat`: scale to the requested box preserving aspect,
refuse to enlarge unless asked, clamp to at least one pixel. -/
def resizeTarget (srcW srcH width height : Int) (enlarge : Bool) : ResizeTarget :=
  if width == 0 && height == 0 then { w := srcW, h := srcH }
  else
    let t1 : Int × Int :=
      if width == 0 then
        let scale : Rat := (height : Rat) / (srcH : Rat)
        (goInt ((srcW : Rat) * scale), height)
      else if height == 0 then
        let scale : Rat := (width : Rat) / (srcW : Rat)
        (width, goInt ((srcH : Rat) * scale))
      else
        let scaleW : Rat := (width : Rat) / (srcW : Rat)
        let scaleH : Rat := (height : Rat) / (srcH : Rat)
        let scale := if scaleH < scaleW then scaleH else scaleW
        (goInt ((srcW : Rat) * scale), goInt ((srcH : Rat) * scale))
    let t2 : Int × Int :=
      if enlarge then t1
      else (if t1.1 > srcW then srcW else t1.1, if t1.2 > srcH then srcH else t1.2)
    { w := if t2.1 ≤ 0 then 1 else t2.1, h := if t2.2 ≤ 0 then 1 else t2.2 }

/-! ## Concrete instances used to exercise the model -/

/-- A request for `http://example.com/a.jpg` with no operation parameters. -/
def plainParams : ProcessingParams := { url := "http://example.com/a.jpg" }

/-- The same request with `blur=5`: the full parameter tuples differ in an
operation parameter outside (URL, width, height, quality, format). -/
def blurParams : ProcessingParams := { url := "http://example.com/a.jpg", blur := 5 }

/-- An engine whose decode, pipeline and encode all succeed. -/
def okEngine : EngineModel := ⟨true, none, fun _ _ => Except.ok [1, 2]⟩

/-- An engine whose pipeline leaves an error on the handle. -/
def pipelineErrEngine : EngineModel := ⟨true, some "vips: operation failed", fun _ _ => Except.ok [1]⟩

/-- An engine whose encoder fails. -/
def encodeErrEngine : EngineModel := ⟨true, none, fun _ _ => Except.error "vips: encode failed"⟩

/-- Twelve bytes starting with the JPEG magic number. -/
def jpegBytes : List Nat := [0xFF, 0xD8, 0xFF, 0xE0, 0, 0, 0, 0, 0, 0, 0, 0]

/-- A resize request (width 100) for the same URL. -/
def resizeParams : ProcessingParams := { url := "http://example.com/a.jpg", width := 100 }

/-- A fetch stub for an origin that answers 404: `Fetcher.Fetch` maps the
non-200 origin status to a 400 `FetchError` carrying the origin status in
its message. -/
def origin404Fetch : String → Except FetchError (List Nat) :=
  fun _ => Except.error ⟨400, "image fetch failed with status 404"⟩

/-- Attempt outcomes for a fetch whose first attempt times out and whose
second attempt receives a 404 response. -/
def timeoutThen404 : Nat → DoResult :=
  fun i => if i = 1 then DoResult.netErr true false "dial timeout" else DoResult.resp 404 [] none

/-- Three distinct keys inserted in order into a capacity-2 store. -/
def demoInserts : List (String × CacheEntry) := [("a", {}), ("b", {}), ("c", {})]

/-! ## Decimal rendering: properties of the `%d` model -/

theorem natReprAux_append (fuel : Nat) :
    ∀ (n : Nat) (acc : List Char),
      natReprAux fuel n acc = natReprAux fuel n [] ++ acc := by
  induction fuel with
  | zero => intro n acc; simp [natReprAux]
  | succ fuel ih =>
    intro n acc
    by_cases h : n < 10
    · simp [natReprAux, h]
    · simp only [natReprAux, if_neg h]
      rw [ih (n / 10) (Nat.digitChar (n % 10) :: acc), ih (n / 10) [Nat.digitChar (n % 10)]]
      simp

theorem natRepr_of_lt {n : Nat} (h : n < 10) : natRepr n = [Nat.digitChar n] := by
  simp [natRepr, natReprAux, h]

theorem natReprAux_eq_natRepr (n : Nat) :
    ∀ (fuel : Nat), n < fuel → natReprAux fuel n [] = natRepr n := by
  induction n using Nat.strong_induction_on with
  | _ n ih =>
    intro fuel hf
    match fuel, hf with
    | fuel + 1, hf =>
      by_cases h : n < 10
      · simp [natReprAux, h, natRepr_of_lt h]
      · have h10 : 10 ≤ n := Nat.le_of_not_lt h
        have hdiv : n / 10 < n := Nat.div_lt_self (by omega) (by omega)
        simp only [natReprAux, if_neg h]
        rw [natReprAux_append, ih (n / 10) hdiv fuel (by omega)]
        conv_rhs => rw [natRepr]
        simp only [natReprAux, if_neg h]
        rw [natReprAux_append, ih (n / 10) hdiv n (by omega)]

theorem natRepr_of_ge {n : Nat} (h : 10 ≤ n) :
    natRepr n = natRepr (n / 10) ++ [Nat.digitChar (n % 10)] := by
  have hdiv : n / 10 < n := Nat.div_lt_self (by omega) (by omega)
  conv_lhs => rw [natRepr]
  simp only [natReprAux, if_neg (Nat.not_lt.mpr h)]
  rw [natReprAux_append, natReprAux_eq_natRepr (n / 10) n (by omega)]

theorem mem_natRepr_digit {c : Char} (n : Nat) (hc : c ∈ natRepr n) :
    ∃ d, d < 10 ∧ c = Nat.digitChar d := by
  induction n using Nat.strong_induction_on with
  | _ n ih =>
    by_cases h : n < 10
    · rw [natRepr_of_lt h] at hc
      simp at hc
      exact ⟨n, h, hc⟩
    · rw [natRepr_of_ge (Nat.le_of_not_lt h)] at hc
      rcases List.mem_append.mp hc with h1 | h2
      · exact ih (n / 10) (Nat.div_lt_self (by omega) (by omega)) h1
      · simp at h2
        exact ⟨n % 10, Nat.mod_lt _ (by omega), h2⟩

theorem digitChar_ne_bar : ∀ d, d < 10 → Nat.digitChar d ≠ '|' := by decide

theorem digitChar_ne_dash : ∀ d, d < 10 → Nat.digitChar d ≠ '-' := by decide

theorem digitChar_inj10 : ∀ a, a < 10 → ∀ b, b < 10 → Nat.digitChar a = Nat.digitChar b → a = b := by
  decide

theorem bar_not_mem_natRepr (n : Nat) : '|' ∉ natRepr n := by
  intro hc
  obtain ⟨d, hd, hcd⟩ := mem_natRepr_digit n hc
  exact digitChar_ne_bar d hd hcd.symm

theorem dash_not_mem_natRepr (n : Nat) : '-' ∉ natRepr n := by
  intro hc
  obtain ⟨d, hd, hcd⟩ := mem_natRepr_digit n hc
  exact digitChar_ne_dash d hd hcd.symm

theorem natRepr_ne_nil (n : Nat) : natRepr n ≠ [] := by
  by_cases h : n < 10
  · rw [natRepr_of_lt h]; simp
  · rw [natRepr_of_ge (Nat.le_of_not_lt h)]; simp

theorem natRepr_inj (a : Nat) : ∀ b, natRepr a = natRepr b → a = b := by
  induction a using Nat.strong_induction_on with
  | _ a ih =>
    intro b hab
    by_cases ha : a < 10 <;> by_cases hb : b < 10
    · rw [natRepr_of_lt ha, natRepr_of_lt hb] at hab
      simp at hab
      exact digitChar_inj10 a ha b hb hab
    · exfalso
      rw [natRepr_of_lt ha, natRepr_of_ge (Nat.le_of_not_lt hb)] at hab
      rcases hne : natRepr (b / 10) with _ | ⟨c, cs⟩
      · exact natRepr_ne_nil _ hne
      · rw [hne] at hab
        simp at hab
    · exfalso
      rw [natRepr_of_ge (Nat.le_of_not_lt ha), natRepr_of_lt hb] at hab
      rcases hne : natRepr (a / 10) with _ | ⟨c, cs⟩
      · exact natRepr_ne_nil _ hne
      · rw [hne] at hab
        simp at hab
    · rw [natRepr_of_ge (Nat.le_of_not_lt ha), natRepr_of_ge (Nat.le_of_not_lt hb)] at hab
      obtain ⟨h1, h2⟩ := List.append_inj' hab (by simp)
      have hdiv := ih (a / 10) (Nat.div_lt_self (by omega) (by omega)) (b / 10) h1
      have hmod : a % 10 = b % 10 :=
        digitChar_inj10 _ (Nat.mod_lt _ (by omega)) _ (Nat.mod_lt _ (by omega)) (by simpa using h2)
      omega

theorem bar_not_mem_intRepr (i : Int) : '|' ∉ intRepr i := by
  unfold intRepr
  split
  · intro hc
    rcases List.mem_cons.mp hc with h | h
    · exact absurd h (by decide)
    · exact bar_not_mem_natRepr _ h
  · exact bar_not_mem_natRepr _

theorem intRepr_inj (i j : Int) (h : intRepr i = intRepr j) : i = j := by
  unfold intRepr at h
  split at h <;> split at h
  · simp only [List.cons.injEq, true_and] at h
    have := natRepr_inj _ _ h
    omega
  · exfalso
    have hmem : '-' ∈ natRepr j.toNat := by
      rw [← h]; exact List.mem_cons_self _ _
    exact dash_not_mem_natRepr _ hmem
  · exfalso
    have hmem : '-' ∈ natRepr i.toNat := by
      rw [h]; exact List.mem_cons_self _ _
    exact dash_not_mem_natRepr _ hmem
  · have := natRepr_inj _ _ h
    omega

/-! ## Separator splitting: injectivity of the canonical key encoding -/

theorem sep_split : ∀ (x y u v : List Char), '|' ∉ x → '|' ∉ y →
    x ++ '|' :: u = y ++ '|' :: v → x = y ∧ u = v := by
  intro x
  induction x with
  | nil =>
    intro y u v _ hy h
    cases y with
    | nil => simpa using h
    | cons b ys =>
      exfalso
      simp only [List.nil_append, List.cons_append, List.cons.injEq] at h
      exact hy (h.1 ▸ List.mem_cons_self b ys)
  | cons a xs ih =>
    intro y u v hx hy h
    cases y with
    | nil =>
      exfalso
      simp only [List.cons_append, List.nil_append, List.cons.injEq] at h
      exact hx (h.1.symm ▸ List.mem_cons_self a xs)
    | cons b ys =>
      simp only [List.cons_append, List.cons.injEq] at h
      obtain ⟨hab, htail⟩ := h
      have hxs : '|' ∉ xs := fun hm => hx (List.mem_cons_of_mem a hm)
      have hys : '|' ∉ ys := fun hm => hy (List.mem_cons_of_mem b hm)
      obtain ⟨h1, h2⟩ := ih ys u v hxs hys htail
      exact ⟨by rw [hab, h1], h2⟩

/-- A parsed format — the empty format or one of the five supported values,
which is all `ParseFormat` ever returns — contains no `|` byte. -/
theorem parsedFormat_bar_free (f : Format) (hf : f = "" ∨ f.IsValid = true) : '|' ∉ f.data := by
  rcases hf with rfl | hv
  · simp
  · unfold Format.IsValid at hv
    simp only [Bool.or_eq_true, beq_iff_eq] at hv
    rcases hv with ((((rfl | rfl) | rfl) | rfl) | rfl) <;> decide

theorem generateCacheKey_inj_raw (u1 u2 : String) (w1 h1 q1 w2 h2 q2 : Int) (f1 f2 : Format)
    (hf1 : '|' ∉ f1.data) (hf2 : '|' ∉ f2.data)
    (h : GenerateCacheKey u1 w1 h1 q1 f1 = GenerateCacheKey u2 w2 h2 q2 f2) :
    u1 = u2 ∧ w1 = w2 ∧ h1 = h2 ∧ q1 = q2 ∧ f1 = f2 := by
  unfold GenerateCacheKey at h
  have hr := congrArg List.reverse h
  simp only [List.reverse_append, List.reverse_cons, List.append_assoc,
    List.singleton_append] at hr
  obtain ⟨hfr, hr2⟩ := sep_split _ _ _ _ (by simpa using hf1) (by simpa using hf2) hr
  try simp only [List.append_eq, List.append_assoc, List.cons_append,
    List.singleton_append] at hr2
  obtain ⟨hqr, hr3⟩ := sep_split _ _ _ _ (by simpa using bar_not_mem_intRepr q1)
    (by simpa using bar_not_mem_intRepr q2) hr2
  try simp only [List.append_eq, List.append_assoc, List.cons_append,
    List.singleton_append] at hr3
  obtain ⟨hhr, hr4⟩ := sep_split _ _ _ _ (by simpa using bar_not_mem_intRepr h1)
    (by simpa using bar_not_mem_intRepr h2) hr3
  try simp only [List.append_eq, List.append_assoc, List.cons_append,
    List.singleton_append] at hr4
  obtain ⟨hwr, hur⟩ := sep_split _ _ _ _ (by simpa using bar_not_mem_intRepr w1)
    (by simpa using bar_not_mem_intRepr w2) hr4
  refine ⟨?_, ?_, ?_, ?_, ?_⟩
  · exact String.ext (List.reverse_injective hur)
  · exact intRepr_inj _ _ (List.reverse_injective hwr)
  · exact intRepr_inj _ _ (List.reverse_injective hhr)
  · exact intRepr_inj _ _ (List.reverse_injective hqr)
  · exact String.ext (List.reverse_injective hfr)

/-! ## C1: cache-key determinism and injectivity -/

/-- C1 counterexample: two requests whose full parameter tuples differ (one
has `blur=5`) receive the *same* cache key — `GenerateCacheKey` as invoked
by `ServeHTTP` never sees the blur parameter, so the collision is certain,
not negligible. -/
theorem cacheKey_ignores_blur_counterexample :
    plainParams ≠ blurParams ∧ cacheKeyOfParams plainParams = cacheKeyOfParams blurParams := by
  exact ⟨by decide, rfl⟩

/-- C1 (amended): `GenerateCacheKey` is deterministic and, up to hash
collision (stated on the md5 pre-image), injective over the 5-tuple
(URL, width, height, quality, format) that `ServeHTTP` actually feeds it;
parameters outside that tuple do not influence the key.  First conjunct:
requests agreeing on the 5-tuple get equal keys whatever their other
operation parameters.  Second conjunct: keys of distinct 5-tuples differ
(for the formats `ParseFormat` can produce). -/
theorem cacheKey_five_tuple_inj :
    (∀ p q : ProcessingParams, p.url = q.url → p.width = q.width → p.height = q.height →
        p.quality = q.quality → p.format = q.format →
        cacheKeyOfParams p = cacheKeyOfParams q) ∧
    (∀ (u1 u2 : String) (w1 h1 q1 w2 h2 q2 : Int) (f1 f2 : Format),
        (f1 = "" ∨ f1.IsValid = true) → (f2 = "" ∨ f2.IsValid = true) →
        GenerateCacheKey u1 w1 h1 q1 f1 = GenerateCacheKey u2 w2 h2 q2 f2 →
        u1 = u2 ∧ w1 = w2 ∧ h1 = h2 ∧ q1 = q2 ∧ f1 = f2) := by
  constructor
  · intro p q h1 h2 h3 h4 h5
    unfold cacheKeyOfParams
    rw [h1, h2, h3, h4, h5]
  · intro u1 u2 w1 h1 q1 w2 h2 q2 f1 f2 hf1 hf2 h
    exact generateCacheKey_inj_raw u1 u2 w1 h1 q1 w2 h2 q2 f1 f2
      (parsedFormat_bar_free f1 hf1) (parsedFormat_bar_free f2 hf2) h

/-- Witness for the amended C1 theorem at concrete inputs: equal 5-tuples
with different rotation share a key, and a concrete key equation over valid
formats forces the 5-tuples equal. -/
theorem cacheKey_five_tuple_inj_witness :
    cacheKeyOfParams plainParams = cacheKeyOfParams { plainParams with rotate := 90 } ∧
    ("http://a/x.png" = "http://a/x.png" ∧ (3 : Int) = 3 ∧ (4 : Int) = 4 ∧ (80 : Int) = 80 ∧
      FormatPNG = FormatPNG) :=
  ⟨cacheKey_five_tuple_inj.1 plainParams { plainParams with rotate := 90 } rfl rfl rfl rfl rfl,
   cacheKey_five_tuple_inj.2 "http://a/x.png" "http://a/x.png" 3 4 80 3 4 80 FormatPNG FormatPNG
     (Or.inr (by decide)) (Or.inr (by decide)) rfl⟩

/-! ## C2: the transform-stage gate never exceeds its capacity -/

theorem semPeak_le_of_le (n : Nat) :
    ∀ (es : List SemEvent) (c : Nat), c ≤ n → ∀ pk, semPeak n c es = some pk → pk ≤ n := by
  intro es
  induction es with
  | nil =>
    intro c hc pk h
    simp [semPeak] at h
    omega
  | cons e es ih =>
    intro c hc pk h
    cases e with
    | acquire =>
      simp only [semPeak] at h
      split at h
      · rcases Option.map_eq_some'.mp h with ⟨pk', hpk', rfl⟩
        exact Nat.max_le.mpr ⟨hc, ih (c + 1) (by omega) pk' hpk'⟩
      · exact absurd h (by simp)
    | release =>
      simp only [semPeak] at h
      split at h
      · rcases Option.map_eq_some'.mp h with ⟨pk', hpk', rfl⟩
        exact Nat.max_le.mpr ⟨hc, ih (c - 1) (by omega) pk' hpk'⟩
      · exact absurd h (by simp)

/-- C2: for a handler built from `cfg` — whose gate is the buffered channel
of capacity `cfg.processingLimit` made in `NewHandler` — every possible
interleaving of slot acquisitions and releases keeps the peak number of
simultaneously held transform-stage slots at or below the limit. -/
theorem gate_peak_le_limit (cfg : Config) (events : List SemEvent) (pk : Nat)
    (h : semPeak cfg.processingLimit 0 events = some pk) : pk ≤ cfg.processingLimit :=
  semPeak_le_of_le cfg.processingLimit events 0 (Nat.zero_le _) pk h

/-- Witness for C2 at a concrete interleaving under limit 2. -/
theorem gate_peak_le_limit_witness :
    semPeak (Config.processingLimit { processingLimit := 2 }) 0
        [SemEvent.acquire, SemEvent.acquire, SemEvent.release, SemEvent.acquire] = some 2 ∧
    2 ≤ Config.processingLimit { processingLimit := 2 } :=
  ⟨by decide,
   gate_peak_le_limit { processingLimit := 2 }
     [SemEvent.acquire, SemEvent.acquire, SemEvent.release, SemEvent.acquire] 2 (by decide)⟩

/-! ## C4: TTL expiry is reported via the found flag -/

/-- C4: an entry stored by `Set` at `t0` into a cache with TTL `Δ` is
invisible to every `Get` strictly later than `t0 + Δ`: `Get` answers
`none` — the Go method's `(nil, false)` — and by its very return type
`(entry, found)` reports absence and expiry only through the flag, never
as an error value. -/
theorem cacheGet_after_ttl (c : InMemoryCache) (k : List Char) (e : CacheEntry) (t0 t : Int)
    (h : t0 + c.ttl < t) : ((c.Set t0 k e).Get t k) = none := by
  unfold InMemoryCache.Set InMemoryCache.Get
  simp only [List.lookup, beq_self_eq_true]
  rw [if_pos (by omega)]

/-- Witness for C4: TTL 30, entry set at instant 0, read at instant 31. -/
theorem cacheGet_after_ttl_witness :
    (0 : Int) + (NewInMemoryCache 30).ttl < 31 ∧
    (((NewInMemoryCache 30).Set 0 ['k'] {}).Get 31 ['k']) = none :=
  ⟨by decide, cacheGet_after_ttl (NewInMemoryCache 30) ['k'] {} 0 31 (by decide)⟩

/-! ## C3: identical requests within TTL are served from cache -/

theorem get_set_within (c : InMemoryCache) (k : List Char) (e : CacheEntry) (t0 t1 : Int)
    (h : t1 - t0 ≤ c.ttl) :
    ((c.Set t0 k e).Get t1 k) = some { e with timestamp := t0 } := by
  unfold InMemoryCache.Set InMemoryCache.Get
  simp only [List.lookup, beq_self_eq_true]
  rw [if_neg (by omega)]

theorem get_some_later (c : InMemoryCache) (k : List Char) (e : CacheEntry) (t0 t1 : Int)
    (hhit : c.Get t0 k = some e) (h : t1 - e.timestamp ≤ c.ttl) : c.Get t1 k = some e := by
  unfold InMemoryCache.Get at hhit ⊢
  cases hl : List.lookup k c.entries with
  | none => rw [hl] at hhit; exact absurd hhit (by simp)
  | some e2 =>
    rw [hl] at hhit
    dsimp only at hhit ⊢
    by_cases hexp : t0 - e2.timestamp > c.ttl
    · rw [if_pos hexp] at hhit
      exact absurd hhit (by simp)
    · rw [if_neg hexp] at hhit
      obtain rfl := Option.some.inj hhit
      rw [if_neg (by omega)]

theorem serveHTTP_hit (eng : EngineModel) (fetchFn : String → Except FetchError (List Nat))
    (now : Int) (cache : InMemoryCache) (p : ProcessingParams) (e : CacheEntry)
    (hhit : cache.Get now (cacheKeyOfParams p) = some e) :
    serveHTTP eng fetchFn now cache p =
      { response := writeResponse e, cache := cache, fetched := false, processed := false } := by
  simp only [serveHTTP]
  rw [hhit]

theorem serveHTTP_miss_error (eng : EngineModel)
    (fetchFn : String → Except FetchError (List Nat)) (now : Int) (cache : InMemoryCache)
    (p : ProcessingParams) (fe : FetchError)
    (hmiss : cache.Get now (cacheKeyOfParams p) = none) (hf : fetchFn p.url = .error fe) :
    serveHTTP eng fetchFn now cache p =
      { response := writeResponse { createErrorEntry fe with timestamp := now },
        cache := cache.Set now (cacheKeyOfParams p) (createErrorEntry fe),
        fetched := true, processed := false } := by
  simp only [serveHTTP]
  rw [hmiss, hf]

theorem serveHTTP_miss_ok (eng : EngineModel)
    (fetchFn : String → Except FetchError (List Nat)) (now : Int) (cache : InMemoryCache)
    (p : ProcessingParams) (data : List Nat)
    (hmiss : cache.Get now (cacheKeyOfParams p) = none) (hf : fetchFn p.url = .ok data) :
    serveHTTP eng fetchFn now cache p =
      { response := writeResponse { (processImage eng data p).entry with timestamp := now },
        cache := cache.Set now (cacheKeyOfParams p) (processImage eng data p).entry,
        fetched := true, processed := true } := by
  simp only [serveHTTP]
  rw [hmiss, hf]

/-- C3: a second request identical to an earlier one, issued within the
cache TTL with no intervening eviction, is answered entirely from the
cache: its response (status, body, headers) equals the first response, the
cache is not re-written, and neither the fetch stage nor the transform
stage runs — whether the first outcome was a success or a cached error
(e.g. an origin 404 answered 400 both times without re-hitting the
origin).  First conjunct: the first request resolved a miss (fetch success
or failure alike); second conjunct: the first request itself hit a cached
entry still live at the second instant. -/
theorem serveHTTP_idempotent (eng : EngineModel)
    (fetchFn : String → Except FetchError (List Nat)) (cache0 : InMemoryCache)
    (p : ProcessingParams) (t0 t1 : Int) (httl : t1 - t0 ≤ cache0.ttl) :
    (cache0.Get t0 (cacheKeyOfParams p) = none →
      serveHTTP eng fetchFn t1 (serveHTTP eng fetchFn t0 cache0 p).cache p =
        { response := (serveHTTP eng fetchFn t0 cache0 p).response,
          cache := (serveHTTP eng fetchFn t0 cache0 p).cache,
          fetched := false, processed := false }) ∧
    (∀ e, cache0.Get t0 (cacheKeyOfParams p) = some e → t1 - e.timestamp ≤ cache0.ttl →
      serveHTTP eng fetchFn t1 (serveHTTP eng fetchFn t0 cache0 p).cache p =
        { response := (serveHTTP eng fetchFn t0 cache0 p).response,
          cache := (serveHTTP eng fetchFn t0 cache0 p).cache,
          fetched := false, processed := false }) := by
  constructor
  · intro hmiss
    cases hf : fetchFn p.url with
    | error fe =>
      rw [serveHTTP_miss_error eng fetchFn t0 cache0 p fe hmiss hf]
      rw [serveHTTP_hit eng fetchFn t1 _ p { createErrorEntry fe with timestamp := t0 }
        (get_set_within cache0 (cacheKeyOfParams p) (createErrorEntry fe) t0 t1 httl)]
    | ok data =>
      rw [serveHTTP_miss_ok eng fetchFn t0 cache0 p data hmiss hf]
      rw [serveHTTP_hit eng fetchFn t1 _ p
        { (processImage eng data p).entry with timestamp := t0 }
        (get_set_within cache0 (cacheKeyOfParams p) (processImage eng data p).entry t0 t1 httl)]
  · intro e hhit hlive
    rw [serveHTTP_hit eng fetchFn t0 cache0 p e hhit]
    rw [serveHTTP_hit eng fetchFn t1 cache0 p e
      (get_some_later cache0 (cacheKeyOfParams p) e t0 t1 hhit hlive)]

/-- Witness for C3: a concrete miss (the stubbed origin answers 404, which
the fetcher reports as a 400 error) followed by an identical request 10
seconds later under a 30-second TTL. -/
theorem serveHTTP_idempotent_witness :
    (10 : Int) - 0 ≤ (NewInMemoryCache 30).ttl ∧
    (NewInMemoryCache 30).Get 0 (cacheKeyOfParams plainParams) = none ∧
    serveHTTP okEngine origin404Fetch 10
        (serveHTTP okEngine origin404Fetch 0 (NewInMemoryCache 30) plainParams).cache
        plainParams =
      { response := (serveHTTP okEngine origin404Fetch 0 (NewInMemoryCache 30) plainParams).response,
        cache := (serveHTTP okEngine origin404Fetch 0 (NewInMemoryCache 30) plainParams).cache,
        fetched := false, processed := false } :=
  ⟨by decide, by decide,
   (serveHTTP_idempotent okEngine origin404Fetch (NewInMemoryCache 30) plainParams 0 10
     (by decide)).1 (by decide)⟩

/-! ## C5: capacity bound and least-recently-used eviction -/

theorem lruRemove_of_not_mem (l : List (String × CacheEntry)) (k : String)
    (h : k ∉ l.map Prod.fst) : lruRemove l k = l := by
  unfold lruRemove
  apply List.filter_eq_self.mpr
  intro kv hkv
  simp only [bne_iff_ne, ne_eq]
  intro he
  exact h (by rw [← he]; exact List.mem_map_of_mem Prod.fst hkv)

theorem take_append_take (a b : List (String × CacheEntry)) (m : Nat) :
    (a ++ b.take m).take m = (a ++ b).take m := by
  rw [List.take_append_eq_append_take, List.take_append_eq_append_take, List.take_take]
  congr 1
  rw [Nat.min_eq_left (Nat.sub_le m a.length)]

theorem lruSetAll_entries (l : List (String × CacheEntry)) :
    ∀ (c : LruCache), (l.map Prod.fst).Nodup →
      (∀ kv ∈ l, kv.1 ∉ c.entries.map Prod.fst) →
      c.entries.length ≤ c.capacity →
      (lruSetAll c l).entries = (l.reverse ++ c.entries).take c.capacity ∧
      (lruSetAll c l).capacity = c.capacity := by
  induction l with
  | nil =>
    intro c _ _ hlen
    simp [lruSetAll, List.take_of_length_le hlen]
  | cons kv l ih =>
    intro c hnodup hfresh hlen
    have hkv : kv.1 ∉ c.entries.map Prod.fst := hfresh kv (List.mem_cons_self _ _)
    have hset : (c.set kv.1 kv.2).entries = ((kv.1, kv.2) :: c.entries).take c.capacity := by
      unfold LruCache.set
      rw [lruRemove_of_not_mem c.entries kv.1 hkv]
    have hsetcap : (c.set kv.1 kv.2).capacity = c.capacity := rfl
    have hnodup2 : (l.map Prod.fst).Nodup := (List.nodup_cons.mp (by simpa using hnodup)).2
    have hfresh2 : ∀ kv2 ∈ l, kv2.1 ∉ (c.set kv.1 kv.2).entries.map Prod.fst := by
      intro kv2 hkv2 hmem
      rw [hset] at hmem
      obtain ⟨x, hx1, hx2⟩ := List.mem_map.mp hmem
      have hx3 : x ∈ (kv.1, kv.2) :: c.entries := List.take_subset _ _ hx1
      rcases List.mem_cons.mp hx3 with rfl | hx4
      · have hdisj : kv.1 ∉ l.map Prod.fst := (List.nodup_cons.mp (by simpa using hnodup)).1
        have hx5 : kv.1 = kv2.1 := hx2
        exact hdisj (by rw [hx5]; exact List.mem_map_of_mem Prod.fst hkv2)
      · exact hfresh kv2 (List.mem_cons_of_mem kv hkv2)
          (by rw [← hx2]; exact List.mem_map_of_mem Prod.fst hx4)
    have hlen2 : (c.set kv.1 kv.2).entries.length ≤ (c.set kv.1 kv.2).capacity := by
      rw [hset, hsetcap]
      simp [List.length_take]
    obtain ⟨h1, h2⟩ := ih (c.set kv.1 kv.2) hnodup2 hfresh2 hlen2
    have hstep : lruSetAll c (kv :: l) = lruSetAll (c.set kv.1 kv.2) l := rfl
    rw [hstep, h1, h2, hset, hsetcap]
    refine ⟨?_, rfl⟩
    rw [take_append_take]
    congr 1
    simp

/-- C5: spec-modelled LRU store.  Inserting `C + k` distinct keys (`k ≥ 1`)
into a store of capacity `C` leaves (i) at most `C` entries retrievable,
(ii) exactly the `C` most recently used keys, in recency order — so no
key is ever evicted ahead of a less-recently-used one — and (iii) every
evicted key lies among the `l.length - C` least recently used
insertions. -/
theorem lru_capacity_eviction (capacity : Int) (hcap : 0 < capacity)
    (l : List (String × CacheEntry)) (hnodup : (l.map Prod.fst).Nodup)
    (hlen : capacity.toNat < l.length) :
    (lruSetAll (NewInMemoryCacheCap capacity) l).entries.length ≤ capacity.toNat ∧
    (lruSetAll (NewInMemoryCacheCap capacity) l).entries =
      (l.drop (l.length - capacity.toNat)).reverse ∧
    (∀ kv ∈ l, kv.1 ∉ (lruSetAll (NewInMemoryCacheCap capacity) l).entries.map Prod.fst →
      kv ∈ l.take (l.length - capacity.toNat)) := by
  have hcap2 : (NewInMemoryCacheCap capacity).capacity = capacity.toNat := by
    unfold NewInMemoryCacheCap
    rw [if_neg (by omega)]
  obtain ⟨h1, _⟩ := lruSetAll_entries l (NewInMemoryCacheCap capacity) hnodup
    (by intro kv hkv hmem; simp [NewInMemoryCacheCap] at hmem)
    (Nat.zero_le _)
  have hemp : (NewInMemoryCacheCap capacity).entries = [] := rfl
  have hent : (lruSetAll (NewInMemoryCacheCap capacity) l).entries =
      l.reverse.take capacity.toNat := by
    rw [h1, hcap2, hemp]
    simp
  have hdrop : l.reverse.take capacity.toNat = (l.drop (l.length - capacity.toNat)).reverse :=
    List.take_reverse
  refine ⟨?_, by rw [hent, hdrop], ?_⟩
  · rw [hent]
    simp [List.length_take]
  · intro kv hkvl hnot
    rw [← List.take_append_drop (l.length - capacity.toNat) l] at hkvl
    rcases List.mem_append.mp hkvl with hin | hin
    · exact hin
    · exfalso
      apply hnot
      rw [hent, hdrop]
      exact List.mem_map_of_mem Prod.fst (List.mem_reverse.mpr hin)

/-- Witness for C5: keys a, b, c inserted into a capacity-2 store; a is
evicted, the two most recent keys c, b remain, most recent first. -/
theorem lru_capacity_eviction_witness :
    (lruSetAll (NewInMemoryCacheCap 2) demoInserts).entries.length ≤ (2 : Int).toNat ∧
    (lruSetAll (NewInMemoryCacheCap 2) demoInserts).entries =
      (demoInserts.drop (demoInserts.length - (2 : Int).toNat)).reverse :=
  ⟨(lru_capacity_eviction 2 (by decide) demoInserts (by decide) (by decide)).1,
   (lru_capacity_eviction 2 (by decide) demoInserts (by decide) (by decide)).2.1⟩

/-! ## C6: no-op requests pass the original bytes through -/

/-- C6: when the parameters request no processing (`NeedsProcessing` false:
no geometry, no format change, default quality, no effect parameters), the
transform stage short-circuits: the entry holds exactly the original
fetched bytes with status 200 and the generic content type
`application/octet-stream`, and the written response carries those same
bytes. -/
theorem processImage_noop (eng : EngineModel) (imageData : List Nat) (p : ProcessingParams)
    (h : p.NeedsProcessing (origFormatOf eng imageData) = false) :
    processImage eng imageData p =
      { entry := { contentType := "application/octet-stream", data := imageData,
                   statusCode := 200, errorMsg := "", timestamp := 0 }, closes := 0 } ∧
    writeResponse (processImage eng imageData p).entry =
      { statusCode := 200, body := imageData, contentType := some "application/octet-stream",
        cacheControl := some "public, max-age=31536000" } := by
  have h1 : processImage eng imageData p =
      { entry := { contentType := "application/octet-stream", data := imageData,
                   statusCode := 200, errorMsg := "", timestamp := 0 }, closes := 0 } := by
    simp only [processImage]
    rw [h]
    simp
  refine ⟨h1, ?_⟩
  rw [h1]
  rfl

/-- Witness for C6 on a concrete default-parameter request. -/
theorem processImage_noop_witness :
    plainParams.NeedsProcessing (origFormatOf okEngine jpegBytes) = false ∧
    processImage okEngine jpegBytes plainParams =
      { entry := { contentType := "application/octet-stream", data := jpegBytes,
                   statusCode := 200, errorMsg := "", timestamp := 0 }, closes := 0 } :=
  ⟨by decide, (processImage_noop okEngine jpegBytes plainParams (by decide)).1⟩

/-! ## C7: handle release counts per transform-stage path -/

/-- C7 (code evaluation): `processImage` calls `Close` exactly once on the
pipeline-error, encode-error and success paths, but the no-processing
short-circuit path returns without any `Close` — the handle decoded from
the source bytes is never released there, so release is not exactly-once
on every path. -/
theorem processImage_close_counts :
    (processImage okEngine jpegBytes plainParams).closes = 0 ∧
    (processImage okEngine jpegBytes resizeParams).closes = 1 ∧
    (processImage pipelineErrEngine jpegBytes resizeParams).closes = 1 ∧
    (processImage encodeErrEngine jpegBytes resizeParams).closes = 1 := by
  refine ⟨by decide, by decide, by decide, by decide⟩

/-! ## C8: the fetch retry policy -/

theorem fetchLoop_attempts_le (doFn : Nat → DoResult) :
    ∀ (remaining attempt : Nat), (fetchLoop doFn attempt remaining).2.1 ≤ remaining + 1 := by
  intro remaining
  induction remaining with
  | zero =>
    intro attempt
    cases h : doFn attempt with
    | resp s b e => simp [fetchLoop, h]
    | netErr t tmp m =>
      by_cases htr : (t || tmp) = true
      · simp [fetchLoop, h, htr]
      · simp [fetchLoop, h, htr]
  | succ remaining ih =>
    intro attempt
    cases h : doFn attempt with
    | resp s b e => simp [fetchLoop, h]
    | netErr t tmp m =>
      by_cases htr : (t || tmp) = true
      · have := ih (attempt + 1)
        simp only [fetchLoop, h, htr, if_true]
        omega
      · simp [fetchLoop, h, htr]

theorem fetchLoop_retry_transient (doFn : Nat → DoResult) :
    ∀ (remaining attempt i : Nat), attempt ≤ i →
      i + 1 < attempt + (fetchLoop doFn attempt remaining).2.1 →
      (doFn i).transient = true := by
  intro remaining
  induction remaining with
  | zero =>
    intro attempt i hai hlt
    have h1 : (fetchLoop doFn attempt 0).2.1 = 1 := by
      cases h : doFn attempt with
      | resp s b e => simp [fetchLoop, h]
      | netErr t tmp m =>
        by_cases htr : (t || tmp) = true
        · simp [fetchLoop, h, htr]
        · simp [fetchLoop, h, htr]
    omega
  | succ remaining ih =>
    intro attempt i hai hlt
    cases h : doFn attempt with
    | resp s b e =>
      have h1 : (fetchLoop doFn attempt (remaining + 1)).2.1 = 1 := by
        simp [fetchLoop, h]
      omega
    | netErr t tmp m =>
      by_cases htr : (t || tmp) = true
      · rcases Nat.eq_or_lt_of_le hai with rfl | hlt2
        · simp [DoResult.transient, h, htr]
        · have heq : (fetchLoop doFn attempt (remaining + 1)).2.1 =
              (fetchLoop doFn (attempt + 1) remaining).2.1 + 1 := by
            simp [fetchLoop, h, htr]
          exact ih (attempt + 1) i hlt2 (by omega)
      · have h1 : (fetchLoop doFn attempt (remaining + 1)).2.1 = 1 := by
          simp [fetchLoop, h, htr]
        omega

theorem fetchLoop_sleeps_linear (doFn : Nat → DoResult) :
    ∀ (remaining attempt j : Nat), j < (fetchLoop doFn attempt remaining).2.2.length →
      (fetchLoop doFn attempt remaining).2.2.getD j 0 = 500 * ((attempt : Int) + j) := by
  intro remaining
  induction remaining with
  | zero =>
    intro attempt j hj
    cases h : doFn attempt with
    | resp s b e => simp [fetchLoop, h] at hj
    | netErr t tmp m =>
      by_cases htr : (t || tmp) = true
      · simp only [fetchLoop, h, htr, if_true] at hj ⊢
        have hj0 : j = 0 := by simpa using hj
        subst hj0
        simp
      · simp [fetchLoop, h, htr] at hj
  | succ remaining ih =>
    intro attempt j hj
    cases h : doFn attempt with
    | resp s b e => simp [fetchLoop, h] at hj
    | netErr t tmp m =>
      by_cases htr : (t || tmp) = true
      · simp only [fetchLoop, h, htr, if_true] at hj ⊢
        cases j with
        | zero => simp
        | succ j2 =>
          have hj2 : j2 < (fetchLoop doFn (attempt + 1) remaining).2.2.length := by
            simpa using hj
          have := ih (attempt + 1) j2 hj2
          simp only [List.getD_cons_succ]
          rw [this]
          push_cast
          ring
      · simp [fetchLoop, h, htr] at hj

/-- C8: for every `Fetch` call — over every possible URL validation outcome
and sequence of attempt outcomes — at most 3 HTTP attempts are issued; an
attempt is retried only when the previous attempt failed with a transient
network error (timeout or temporary); the backoff before the `j`-th retry
is `500ms * attempt number`, growing linearly; an empty URL, a malformed
URL, or a non-http(s) scheme is rejected with a 400 error and zero
attempts; and a non-200 origin response on the first attempt ends the call
at once with a 400 error whose message carries the origin status. -/
theorem fetch_retry_policy (url : String) (parse : UrlParse) (doFn : Nat → DoResult) :
    (Fetch url parse doFn).attempts ≤ 3 ∧
    (∀ i, 1 ≤ i → i < (Fetch url parse doFn).attempts → (doFn i).transient = true) ∧
    (∀ j, j < (Fetch url parse doFn).sleeps.length →
      (Fetch url parse doFn).sleeps.getD j 0 = 500 * ((j : Int) + 1)) ∧
    (url = "" → (Fetch url parse doFn).attempts = 0 ∧
      (Fetch url parse doFn).result = .error ⟨400, "missing image URL"⟩) ∧
    (∀ msg, parse = .malformed msg → (Fetch url parse doFn).attempts = 0) ∧
    (∀ scheme, parse = .parsed scheme → scheme ≠ "http" → scheme ≠ "https" →
      (Fetch url parse doFn).attempts = 0) ∧
    (∀ status body readErr, doFn 1 = .resp status body readErr → status ≠ 200 →
      (Fetch url parse doFn).attempts ≤ 1 ∧
      ((Fetch url parse doFn).attempts = 0 ∨
        (Fetch url parse doFn).result =
          .error ⟨400, "image fetch failed with status " ++ (⟨intRepr status⟩ : String)⟩)) := by
  by_cases hurl : (url == "") = true
  · have hA : (Fetch url parse doFn).attempts = 0 := by
      unfold Fetch
      rw [if_pos hurl]
    have hS : (Fetch url parse doFn).sleeps = [] := by
      unfold Fetch
      rw [if_pos hurl]
    have hR : (Fetch url parse doFn).result = .error ⟨400, "missing image URL"⟩ := by
      unfold Fetch
      rw [if_pos hurl]
    refine ⟨by omega, fun i h1 h2 => absurd h2 (by omega), fun j hj => ?_,
      fun _ => ⟨hA, hR⟩, fun _ _ => hA, fun _ _ _ _ => hA,
      fun _ _ _ _ _ => ⟨by omega, Or.inl hA⟩⟩
    rw [hS] at hj
    simp at hj
  · cases parse with
    | malformed msg =>
      have hA : (Fetch url (.malformed msg) doFn).attempts = 0 := by
        unfold Fetch
        rw [if_neg hurl]
      have hS : (Fetch url (.malformed msg) doFn).sleeps = [] := by
        unfold Fetch
        rw [if_neg hurl]
      refine ⟨by omega, fun i h1 h2 => absurd h2 (by omega), fun j hj => ?_,
        fun h => absurd (by simp [h]) hurl, fun _ _ => hA, fun _ h _ _ => by simp at h,
        fun _ _ _ _ _ => ⟨by omega, Or.inl hA⟩⟩
      rw [hS] at hj
      simp at hj
    | parsed scheme =>
      by_cases hs : (scheme == "" || (scheme != "http" && scheme != "https")) = true
      · have hA : (Fetch url (.parsed scheme) doFn).attempts = 0 := by
          unfold Fetch
          rw [if_neg hurl]
          dsimp only
          rw [if_pos hs]
        have hS : (Fetch url (.parsed scheme) doFn).sleeps = [] := by
          unfold Fetch
          rw [if_neg hurl]
          dsimp only
          rw [if_pos hs]
        refine ⟨by omega, fun i h1 h2 => absurd h2 (by omega), fun j hj => ?_,
          fun h => absurd (by simp [h]) hurl, fun _ h => by simp at h,
          fun _ _ _ _ => hA, fun _ _ _ _ _ => ⟨by omega, Or.inl hA⟩⟩
        rw [hS] at hj
        simp at hj
      · have hrun : Fetch url (.parsed scheme) doFn =
            (match (fetchLoop doFn 1 2).1 with
            | .netErr _ _ m =>
              { result := .error ⟨400, "failed to fetch image: " ++ m⟩,
                attempts := (fetchLoop doFn 1 2).2.1, sleeps := (fetchLoop doFn 1 2).2.2 }
            | .resp status body readErr =>
              if status != 200 then
                { result := .error ⟨400,
                    "image fetch failed with status " ++ (⟨intRepr status⟩ : String)⟩,
                  attempts := (fetchLoop doFn 1 2).2.1, sleeps := (fetchLoop doFn 1 2).2.2 }
              else
                match readErr with
                | some m =>
                  { result := .error ⟨500, "failed to read image data: " ++ m⟩,
                    attempts := (fetchLoop doFn 1 2).2.1, sleeps := (fetchLoop doFn 1 2).2.2 }
                | none =>
                  { result := .ok body, attempts := (fetchLoop doFn 1 2).2.1,
                    sleeps := (fetchLoop doFn 1 2).2.2 }) := by
          unfold Fetch
          rw [if_neg hurl]
          dsimp only
          rw [if_neg hs]
        have hatt : (Fetch url (.parsed scheme) doFn).attempts = (fetchLoop doFn 1 2).2.1 := by
          rw [hrun]
          rcases (fetchLoop doFn 1 2).1 with _ | ⟨status, body, readErr⟩
          · rfl
          · dsimp only
            split
            · rfl
            · rcases readErr with _ | m <;> rfl
        have hsleeps : (Fetch url (.parsed scheme) doFn).sleeps = (fetchLoop doFn 1 2).2.2 := by
          rw [hrun]
          rcases (fetchLoop doFn 1 2).1 with _ | ⟨status, body, readErr⟩
          · rfl
          · dsimp only
            split
            · rfl
            · rcases readErr with _ | m <;> rfl
        refine ⟨?_, ?_, ?_, fun h => absurd (by simp [h]) hurl, fun _ h => by simp at h,
          ?_, ?_⟩
        · rw [hatt]
          have := fetchLoop_attempts_le doFn 2 1
          omega
        · intro i hi1 hia
          rw [hatt] at hia
          exact fetchLoop_retry_transient doFn 2 1 i hi1 (by omega)
        · intro j hj
          rw [hsleeps] at hj ⊢
          have := fetchLoop_sleeps_linear doFn 2 1 j hj
          rw [this]
          push_cast
          ring
        · intro sch h hh hhs
          cases h
          exact absurd (by simp [hh, hhs] : (scheme == "" ||
            (scheme != "http" && scheme != "https")) = true) hs
        · intro status body readErr hdo hst
          have hloop : fetchLoop doFn 1 2 = (.resp status body readErr, 1, []) := by
            simp [fetchLoop, hdo]
          constructor
          · exact le_of_eq (by rw [hatt, hloop])
          · right
            rw [hrun, hloop]
            dsimp only
            rw [if_pos (by simpa using hst)]

/-- Witness for C8: first attempt times out (transient), second attempt
gets the 404 response; two attempts, one 500ms backoff. -/
theorem fetch_retry_policy_witness :
    (Fetch "http://o/a.png" (.parsed "http") timeoutThen404).attempts ≤ 3 ∧
    (timeoutThen404 1).transient = true ∧
    (Fetch "http://o/a.png" (.parsed "http") timeoutThen404).sleeps.getD 0 0 =
      500 * ((0 : Int) + 1) :=
  ⟨(fetch_retry_policy "http://o/a.png" (.parsed "http") timeoutThen404).1,
   (fetch_retry_policy "http://o/a.png" (.parsed "http") timeoutThen404).2.1 1
     (by decide) (by decide),
   (fetch_retry_policy "http://o/a.png" (.parsed "http") timeoutThen404).2.2.1 0 (by decide)⟩

/-! ## C9: resize-target arithmetic -/

theorem goInt_le_intCast (q : Rat) (b : Int) (h0 : 0 ≤ q) (hb : q ≤ (b : Rat)) : goInt q ≤ b := by
  unfold goInt
  rw [if_neg (not_lt.mpr h0)]
  calc ⌊q⌋ ≤ ⌊(b : Rat)⌋ := Int.floor_le_floor hb
    _ = b := Int.floor_intCast b

theorem resizeTarget_fits_box (srcW srcH width height : Int) (e : Bool)
    (hsW : 0 < srcW) (hsH : 0 < srcH) (hw : 0 < width) (hh : 0 < height) :
    (resizeTarget srcW srcH width height e).w ≤ width ∧
    (resizeTarget srcW srcH width height e).h ≤ height := by
  have hW0 : (width == 0) = false := by simp; omega
  have hH0 : (height == 0) = false := by simp; omega
  have hsWQ : (0 : Rat) < (srcW : Rat) := by exact_mod_cast hsW
  have hsHQ : (0 : Rat) < (srcH : Rat) := by exact_mod_cast hsH
  set scale : Rat := if (height : Rat) / (srcH : Rat) < (width : Rat) / (srcW : Rat)
      then (height : Rat) / (srcH : Rat) else (width : Rat) / (srcW : Rat) with hscale
  have hscale0 : 0 ≤ scale := by
    rw [hscale]
    split
    · positivity
    · positivity
  have hscaleW : scale ≤ (width : Rat) / (srcW : Rat) := by
    rw [hscale]
    split
    · exact le_of_lt (by assumption)
    · exact le_refl _
  have hscaleH : scale ≤ (height : Rat) / (srcH : Rat) := by
    rw [hscale]
    split
    · exact le_refl _
    · exact le_of_not_lt (by assumption)
  have hW : (srcW : Rat) * scale ≤ (width : Rat) := by
    calc (srcW : Rat) * scale ≤ (srcW : Rat) * ((width : Rat) / (srcW : Rat)) :=
        mul_le_mul_of_nonneg_left hscaleW (le_of_lt hsWQ)
      _ = (width : Rat) := by field_simp
  have hH : (srcH : Rat) * scale ≤ (height : Rat) := by
    calc (srcH : Rat) * scale ≤ (srcH : Rat) * ((height : Rat) / (srcH : Rat)) :=
        mul_le_mul_of_nonneg_left hscaleH (le_of_lt hsHQ)
      _ = (height : Rat) := by field_simp
  have htw : goInt ((srcW : Rat) * scale) ≤ width :=
    goInt_le_intCast _ _ (mul_nonneg (le_of_lt hsWQ) hscale0) hW
  have hth : goInt ((srcH : Rat) * scale) ≤ height :=
    goInt_le_intCast _ _ (mul_nonneg (le_of_lt hsHQ) hscale0) hH
  unfold resizeTarget
  simp [hW0, hH0, ← hscale]
  constructor <;> split_ifs <;> omega

/-- C9: the resize-target computation of `ResizeWithOptions`.  On a
1000×500 source, requesting `w=600&h=400` scales by the smaller box ratio,
giving 600×300 — the largest size fitting the box with aspect preserved —
and requesting `w=500` alone scales the height proportionally, giving
500×250.  In general, for positive source and box dimensions, the target
always fits within the requested box. -/
theorem resizeTarget_examples :
    (resizeTarget 1000 500 600 400 false = { w := 600, h := 300 } ∧
     resizeTarget 1000 500 500 0 false = { w := 500, h := 250 }) ∧
    (∀ (srcW srcH width height : Int) (e : Bool),
      0 < srcW → 0 < srcH → 0 < width → 0 < height →
      (resizeTarget srcW srcH width height e).w ≤ width ∧
      (resizeTarget srcW srcH width height e).h ≤ height) := by
  refine ⟨⟨?_, ?_⟩, ?_⟩
  · unfold resizeTarget goInt
    norm_num
  · unfold resizeTarget goInt
    norm_num
  · intro srcW srcH width height e hsW hsH hw hh
    exact resizeTarget_fits_box srcW srcH width height e hsW hsH hw hh

/-- Witness for C9's general box-fit clause at the 1000×500, w=600, h=400
instance. -/
theorem resizeTarget_examples_witness :
    (0 : Int) < 1000 ∧ (0 : Int) < 500 ∧ (0 : Int) < 600 ∧ (0 : Int) < 400 ∧
    (resizeTarget 1000 500 600 400 false).w ≤ 600 ∧
    (resizeTarget 1000 500 600 400 false).h ≤ 400 :=
  ⟨by decide, by decide, by decide, by decide,
   (resizeTarget_examples.2 1000 500 600 400 false (by decide) (by decide) (by decide)
     (by decide)).1,
   (resizeTarget_examples.2 1000 500 600 400 false (by decide) (by decide) (by decide)
     (by decide)).2⟩

/-! ## C10: unsupported format values fall back silently -/

theorem parseFormat_valid_or_empty (s : String) :
    ParseFormat s = "" ∨ (ParseFormat s).IsValid = true := by
  unfold ParseFormat
  dsimp only
  split
  · exact Or.inl rfl
  · split
    · split
      · exact Or.inr (by assumption)
      · exact Or.inl rfl
    · split
      · exact Or.inr (by assumption)
      · exact Or.inl rfl

theorem isValid_ne_empty (f : Format) (h : f.IsValid = true) : f ≠ "" := by
  unfold Format.IsValid at h
  simp only [Bool.or_eq_true, beq_iff_eq] at h
  rcases h with ((((rfl | rfl) | rfl) | rfl) | rfl) <;> decide

/-- C10: a `format` query value that is not one of jpeg/jpg/png/gif/webp/avif
after trimming and lowercasing is treated as unspecified: `ParseFormat`
returns the empty format; with an empty format, `GetOutputFormat` falls
back to the detected original format, or to JPEG when none was detected;
and for any parsed format value the output format is always one of the
supported five, so an unsupported `format` value never by itself produces
an error response. -/
theorem parseFormat_invalid_fallback :
    (∀ s : String, toLowerStr (trimSpace s) ≠ "jpeg" → toLowerStr (trimSpace s) ≠ "jpg" →
      toLowerStr (trimSpace s) ≠ "png" → toLowerStr (trimSpace s) ≠ "gif" →
      toLowerStr (trimSpace s) ≠ "webp" → toLowerStr (trimSpace s) ≠ "avif" →
      ParseFormat s = "") ∧
    (∀ (p : ProcessingParams) (orig : Format), p.format = "" →
      p.GetOutputFormat orig = if orig = "" then FormatJPEG else orig) ∧
    (∀ (p : ProcessingParams) (orig : Format) (s : String), p.format = ParseFormat s →
      (orig = "" ∨ orig.IsValid = true) → (p.GetOutputFormat orig).IsValid = true) := by
  refine ⟨?_, ?_, ?_⟩
  · intro s h1 h2 h3 h4 h5 h6
    unfold ParseFormat
    dsimp only
    split
    · rfl
    · have h2b : (toLowerStr (trimSpace s) == "jpg") = false := by simpa using h2
      have hval : Format.IsValid (toLowerStr (trimSpace s)) = false := by
        unfold Format.IsValid
        simp [FormatJPEG, FormatPNG, FormatGIF, FormatWebP, FormatAVIF, h1, h3, h4, h5, h6]
      simp [h2b, hval]
  · intro p orig hp
    unfold ProcessingParams.GetOutputFormat
    rw [if_pos (by simp [hp])]
    by_cases horig : orig = "" <;> simp [horig]
  · intro p orig s hp hor
    unfold ProcessingParams.GetOutputFormat
    rcases parseFormat_valid_or_empty s with hpf | hpf
    · rw [hp, hpf]
      rw [if_pos (by simp)]
      rcases hor with rfl | hv
      · rw [if_neg (by simp)]
        decide
      · rw [if_pos (by simpa using isValid_ne_empty orig hv)]
        exact hv
    · have hne : p.format ≠ "" := by rw [hp]; exact isValid_ne_empty _ hpf
      rw [if_neg (by simpa using hne)]
      rw [hp]
      exact hpf

/-- Witness for C10 on the unsupported value `bmp` with original format
png: the value parses to the empty format and the output falls back to
png, a supported format. -/
theorem parseFormat_invalid_fallback_witness :
    ParseFormat "bmp" = "" ∧
    ProcessingParams.GetOutputFormat { plainParams with format := ParseFormat "bmp" }
        FormatPNG = (if (FormatPNG : Format) = "" then FormatJPEG else FormatPNG) ∧
    (ProcessingParams.GetOutputFormat { plainParams with format := ParseFormat "bmp" }
        FormatPNG).IsValid = true :=
  ⟨parseFormat_invalid_fallback.1 "bmp" (by decide) (by decide) (by decide) (by decide)
      (by decide) (by decide),
   parseFormat_invalid_fallback.2.1 { plainParams with format := ParseFormat "bmp" }
      FormatPNG (by decide),
   parseFormat_invalid_fallback.2.2 { plainParams with format := ParseFormat "bmp" }
      FormatPNG "bmp" rfl (Or.inr (by decide))⟩

end IPXpress
